import Mathlib

/-!
Verification of the soluble-cli tool-execution and result-normalization
pipeline.  The Go sources are embedded shallowly: pure functions become Lean
functions over `String`/`List`, the process environment, the filesystem and
the network are passed in explicitly, and Go's `nil`-able values become
`Option`.
-/

/-- Model of Go `strings.ToUpper` (ASCII case mapping, as in Lean's
`Char.toUpper`). -/
def toUpperStr (s : String) : String := ⟨s.data.map Char.toUpper⟩

/-- Model of Go `strings.ToLower`. -/
def toLowerStr (s : String) : String := ⟨s.data.map Char.toLower⟩

/-- Index (in characters) of the first occurrence of `sub` in a character
list, as in Go `strings.Index`. -/
def firstOccur (sub : List Char) : List Char → Option Nat
  | [] => if sub.isEmpty then some 0 else none
  | c :: t => if sub.isPrefixOf (c :: t) then some 0 else (firstOccur sub t).map (· + 1)

/-- Index of the last occurrence of `sub` in a character list, as in Go
`strings.LastIndex`. -/
def lastOccur (sub : List Char) : List Char → Option Nat
  | [] => if sub.isEmpty then some 0 else none
  | c :: t =>
    match lastOccur sub t with
    | some i => some (i + 1)
    | none => if sub.isPrefixOf (c :: t) then some 0 else none

/-- Go `strings.Index`: first occurrence or `-1`. -/
def strIndex (s sub : String) : Int :=
  match firstOccur sub.data s.data with
  | some i => (i : Int)
  | none => -1

/-- Go `strings.LastIndex`: last occurrence or `-1`. -/
def strLastIndex (s sub : String) : Int :=
  match lastOccur sub.data s.data with
  | some i => (i : Int)
  | none => -1

/-- Go `strings.Contains`. -/
def containsStr (s sub : String) : Bool := (firstOccur sub.data s.data).isSome

/-- Go `strings.HasPrefix`. -/
def hasPrefixStr (s pre : String) : Bool := pre.data.isPrefixOf s.data

/-- Go `strings.HasSuffix`. -/
def hasSuffixStr (s suf : String) : Bool := suf.data.isSuffixOf s.data

/-- Go string slicing `s[a:b]` (character-based model of the byte slice). -/
def strSlice (s : String) (a b : Nat) : String := ⟨(s.data.take b).drop a⟩

/-- Go string slicing `s[:n]`. -/
def strTake (s : String) (n : Nat) : String := ⟨s.data.take n⟩

/-- Go `strings.Replace(s, old, new, 1)`: replace the first occurrence only. -/
def replaceFirst (s old new : String) : String :=
  match firstOccur old.data s.data with
  | none => s
  | some i => ⟨s.data.take i ++ new.data ++ s.data.drop (i + old.data.length)⟩

/-- ASCII whitespace predicate backing the `strings.TrimSpace` model. -/
def isSpaceChar (c : Char) : Bool := c = ' ' || c = '\t' || c = '\n' || c = '\r'

/-- Model of Go `strings.TrimSpace`. -/
def trimSpace (s : String) : String :=
  ⟨((s.data.dropWhile isSpaceChar).reverse.dropWhile isSpaceChar).reverse⟩

/-- Model of Go `path/filepath.Join` for the two-component uses in the code. -/
def joinPath (d p : String) : String :=
  if d = "" then p else if p = "" then d else d ++ "/" ++ p

/-- Model of Go `path/filepath.IsAbs` (unix). -/
def isAbsPath (p : String) : Bool := hasPrefixStr p "/"

/-- Model of Go `path/filepath.Base`: the final path component. -/
def baseName (p : String) : String := ⟨(p.data.reverse.takeWhile (· ≠ '/')).reverse⟩

/-- Sensitive-term substrings from `pkg/xcp`: a key whose uppercased form
contains one of these is skipped. -/
def substringOmitEnv : List String :=
  ["SECRET", "KEY", "PRIVATE", "PASSWORD",
   "PASSPHRASE", "CREDS", "TOKEN", "AUTH",
   "ENC", "JWT",
   "_USR", "_PSW"]

/-- Known-sensitive exact key names from `pkg/xcp` (exact match, not
substring). -/
def explicitOmitEnv : List String :=
  ["BUILDKITE_S3_SECRET_ACCESS_KEY",
   "BUILDKITE_S3_ACCESS_KEY_ID",
   "BUILDKITE_S3_ACCESS_URL",
   "BUILDKITE_COMMAND",
   "BUILDKITE_SCRIPT_PATH",
   "KEY",
   "CI_DEPLOY_PASSWORD",
   "CI_DEPLOY_USER",
   "CI_JOB_TOKEN",
   "CI_JOB_JWT",
   "CI_REGISTRY_USER",
   "CI_REGISTRY_PASSWORD",
   "CI_REGISTRY_USER"]

/-- CI-platform key name allow prefixes tested in `GetCIEnv`. -/
def ciEnvAllowList : List String :=
  ["GITHUB_", "CIRCLE_", "GITLAB_", "CI_", "BUILDKITE_", "ZODIAC_"]

/-- Keys of the `metadataCommands` map in `pkg/xcp` (git metadata). -/
def metadataCommandKeys : List String :=
  ["SOLUBLE_METADATA_GIT_BRANCH",
   "SOLUBLE_METADATA_GIT_COMMIT",
   "SOLUBLE_METADATA_GIT_COMMIT_SHORT",
   "SOLUBLE_METADATA_GIT_DESCRIBE",
   "SOLUBLE_METADATA_GIT_REMOTE"]

/-- Go map assignment `m[k] = v` on an association-list model: replace the
binding if the key is present, append it otherwise. -/
def mapPut (m : List (String × String)) (k v : String) : List (String × String) :=
  if m.any (fun kv => kv.1 = k) then
    m.map (fun kv => if kv.1 = k then (k, v) else kv)
  else m ++ [(k, v)]

/-- Go map lookup `m[k]`, yielding the empty string for a missing key as Go
does. -/
def mapGet (m : List (String × String)) (k : String) : String :=
  match m.find? (fun kv => kv.1 = k) with
  | some kv => kv.2
  | none => ""

/-- Per-key body of the `envLoop` in `GetCIEnv`: uppercase the key, drop it on
a deny-substring or an exact deny match, keep it when a CI allow prefix
matches, and record the CI system name (text before the first underscore of
the first kept key). -/
def envLoopStep (acc : List (String × String) × String) (kv : String × String) :
    List (String × String) × String :=
  let k := toUpperStr kv.1
  if substringOmitEnv.any (fun s => containsStr k s) then acc
  else if explicitOmitEnv.any (fun s => k = s) then acc
  else if ciEnvAllowList.any (fun p => hasPrefixStr k p) then
    let values := mapPut acc.1 k kv.2
    let ciSystem :=
      if acc.2 = "" then
        let idx := strIndex k "_"
        if idx > 0 then strTake k idx.toNat else acc.2
      else acc.2
    (values, ciSystem)
  else acc

/-- `normalizeGitRemote` from `pkg/xcp`: rewrite `git@host:path.git` to
`host/path` by locating the first `@` and the last `.git`. -/
def normalizeGitRemote (s : String) : String :=
  let at_ := strIndex s "@"
  let dotgit := strLastIndex s ".git"
  if at_ > 0 ∧ dotgit > 0 then
    replaceFirst (strSlice s (at_.toNat + 1) dotgit.toNat) ":" "/"
  else s

/-- `GetCIEnv` from `pkg/xcp`.  The process environment is the explicit
association list `env`; the outputs of the five git metadata commands are
`gitOutput` (`none` models a failing command); the hostname lookup is
`hostname` (`none` models failure).  Go map iteration over the environment is
determinized as the list order of `env`. -/
def GetCIEnv (env : List (String × String)) (gitOutput : String → Option String)
    (hostname : Option String) : List (String × String) :=
  let loop := env.foldl envLoopStep ([], "")
  let values := mapPut loop.1 "SOLUBLE_METADATA_CI_SYSTEM" loop.2
  let values := metadataCommandKeys.foldl
    (fun values k =>
      match gitOutput k with
      | some out => mapPut values k (trimSpace out)
      | none => values)
    values
  let values :=
    let s := normalizeGitRemote (mapGet values "SOLUBLE_METADATA_GIT_REMOTE")
    if s ≠ "" then mapPut values "SOLUBLE_METADATA_GIT_REMOTE" s else values
  match hostname with
  | some h => mapPut values "SOLUBLE_METADATA_HOSTNAME" h
  | none => values

/-- `DockerError` from `pkg/tools`: an error carrying only a message string. -/
structure DockerError where
  msg : String
deriving DecidableEq, Repr

/-- The `DockerError` returned for daemon-probe exit code 1. -/
def daemonNotRunning : DockerError := ⟨"the docker server is not running"⟩

/-- The `DockerError` returned for daemon-probe exit code 127. -/
def daemonNotInstalled : DockerError :=
  ⟨"the docker executable is not present, or is not in the PATH"⟩

/-- The `DockerError` returned for any other non-zero daemon-probe exit code. -/
def daemonUnknownError : DockerError := ⟨"unknown error checking docker availability"⟩

/-- `hasDocker` from `pkg/tools/docker.go`, as a function of the exit code of
the `docker info` probe.  `none` means no error. -/
def hasDocker (exitCode : Int) : Option DockerError :=
  if exitCode = 0 then none
  else if exitCode = 1 then some daemonNotRunning
  else if exitCode = 127 then some daemonNotInstalled
  else some daemonUnknownError

/-- `DockerTool` from `pkg/tools/docker.go`.  The two output-stream fields are
modelled as flags; everything else carries over directly. -/
structure DockerTool where
  Name : String
  Image : String
  DockerArgs : List String
  Args : List String
  DefaultNoDockerName : String
  PolicyDirectory : String
  hasStdout : Bool
  hasStderr : Bool
  Directory : String
deriving DecidableEq, Repr

/-- `appendProxyEnv` from `pkg/tools/docker.go`: for each proxy variable, in
exact case then lower case, append `-e NAME` when the variable is set
non-empty. -/
def appendProxyEnv (getenv : String → String) (args : List String) : List String :=
  ["HTTP_PROXY", "HTTPS_PROXY", "NO_PROXY"].foldl
    (fun args k =>
      let args := if getenv k ≠ "" then args ++ ["-e", k] else args
      let lk := toLowerStr k
      if getenv lk ≠ "" then args ++ ["-e", lk] else args)
    args

/-- `DockerTool.getArgs` from `pkg/tools/docker.go`.  The Go method mutates
`t.Args` when a policy directory is configured; the model returns the updated
tool alongside the assembled argument vector. -/
def DockerTool.getArgs (t : DockerTool) (getenv : String → String) :
    DockerTool × List String :=
  let args := ["run", "--rm"]
  let args := if t.Directory ≠ "" then args ++ ["-v", t.Directory ++ ":/src", "-w", "/src"]
    else args
  let t := if t.PolicyDirectory ≠ "" then
      { t with Args := t.Args.map (fun a => if a = t.PolicyDirectory then "/policy" else a) }
    else t
  let args := if t.PolicyDirectory ≠ "" then args ++ ["-v", t.PolicyDirectory ++ ":/policy"]
    else args
  let args := args ++ t.DockerArgs
  let args := appendProxyEnv getenv args
  let args := args ++ [t.Image] ++ t.Args
  (t, args)

/-- Observable subprocess actions of `DockerTool.run`, in order. -/
inductive RunEvent where
  | probeDaemon
  | pullImage (image : String)
  | runContainer (argv : List String)
deriving DecidableEq, Repr

/-- `DockerTool.run` from `pkg/tools/docker.go` as a trace semantics: the
daemon probe (with exit code `probeExit`) runs first; on probe failure the
error is returned with no further subprocess; otherwise the optional image
pull and the container run follow. -/
def DockerTool.runModel (t : DockerTool) (probeExit : Int) (skipPull : Bool)
    (getenv : String → String) : List RunEvent × Except DockerError (List String) :=
  match hasDocker probeExit with
  | some e => ([RunEvent.probeDaemon], Except.error e)
  | none =>
    let pullEvents := if skipPull then [] else [RunEvent.pullImage t.Image]
    let argv := (t.getArgs getenv).2
    ([RunEvent.probeDaemon] ++ pullEvents ++ [RunEvent.runContainer ("docker" :: argv)],
      Except.ok argv)

/-- Decimal digit characters of a natural number (model of Go `%d`). -/
def natRepr (n : Nat) : List Char :=
  if n = 0 then ['0'] else ((Nat.digits 10 n).map (fun d => Char.ofNat (48 + d))).reverse

/-- Decimal rendering of an integer (model of Go `%d`). -/
def intRepr (i : Int) : List Char :=
  if i < 0 then '-' :: natRepr i.natAbs else natRepr i.natAbs

/-- Decimal rendering of an integer as a `String`. -/
def intReprStr (i : Int) : String := ⟨intRepr i⟩

/-- Minimal model of the `go-jnode` document tree: the operations the code
uses are field lookup, array iteration, size, scalar conversion and field
update. -/
inductive JNode where
  | text (s : String)
  | num (i : Int)
  | boolean (b : Bool)
  | obj (fields : List (String × JNode))
  | arr (elems : List JNode)
  | missing

/-- `Path`: child of an object by field name, or the missing node. -/
def JNode.path (n : JNode) (k : String) : JNode :=
  match n with
  | .obj fs =>
    match fs.find? (fun kv => kv.1 = k) with
    | some kv => kv.2
    | none => .missing
  | _ => .missing

/-- `Size`: element count of an array, field count of an object, else 0. -/
def JNode.size : JNode → Nat
  | .arr l => l.length
  | .obj fs => fs.length
  | _ => 0

/-- `Elements`: the elements of an array node, else the empty list. -/
def JNode.elements : JNode → List JNode
  | .arr l => l
  | _ => []

/-- `AsText`: scalar rendered as text (containers and the missing node give
the empty string in this model). -/
def JNode.asText : JNode → String
  | .text s => s
  | .num i => intReprStr i
  | .boolean b => if b then "true" else "false"
  | _ => ""

/-- `AsInt`: numeric value of a number node (other nodes give 0 in this
model). -/
def JNode.asInt : JNode → Int
  | .num i => i
  | _ => 0

/-- `IsObject`. -/
def JNode.isObject : JNode → Bool
  | .obj _ => true
  | _ => false

/-- `Put` on an object node: replace or append the field.  (The code only
ever calls `Put` on existing objects.) -/
def JNode.put (n : JNode) (k : String) (v : JNode) : JNode :=
  match n with
  | .obj fs =>
    if fs.any (fun kv => kv.1 = k) then
      .obj (fs.map (fun kv => if kv.1 = k then (k, v) else kv))
    else .obj (fs ++ [(k, v)])
  | other => other

/-- In-place mutation of the child `n.Path(k)` through the alias, as performed
by the Go code's `n.Path("results").Put(...)`: when `n` is an object with
field `k` the field's value is rewritten; otherwise `Path` returned a detached
missing node and the mutation is invisible in `n`. -/
def JNode.mutateField (n : JNode) (k : String) (f : JNode → JNode) : JNode :=
  match n with
  | .obj fs =>
    if fs.any (fun kv => kv.1 = k) then
      .obj (fs.map (fun kv => if kv.1 = k then (kv.1, f kv.2) else kv))
    else n
  | _ => n

/-- Modelled from the spec: `util.RemoveJNodeElementsIf` (`pkg/util` is not
among the provided sources): removes the elements of an array node matching
the predicate; the spec's document-model contract is "path lookup, array
iteration, and element removal-by-predicate". -/
def removeJNodeElementsIf (n : JNode) (p : JNode → Bool) : JNode :=
  match n with
  | .arr l => .arr (l.filter (fun e => !p e))
  | other => other

/-- `assessments.Finding` (`pkg/assessments` is not among the provided
sources; the field set follows the spec's Finding data model and the fields
the provided code reads and writes). -/
structure Finding where
  filePath : String
  line : Int
  description : String
  tool : List (String × String)
  repoPath : String
  partialFingerprint : String
deriving DecidableEq, Repr

/-- `assessments.Assessment`, reduced to its one recognized field (a findings
list), per the spec's data model. -/
structure Assessment where
  findings : List Finding

/-- `FileFingerprint` from `pkg/tools`. -/
structure FileFingerprint where
  line : Int
  repoPath : String
  partialFingerprint : String
  filePath : String
  multiDocumentFile : Bool
deriving DecidableEq, Repr

/-- `Result` from `pkg/tools`.  Go `nil` slices/sets are `none`. -/
structure Result where
  Data : JNode
  Findings : Option (List Finding)
  Values : List (String × String)
  Directory : String
  Files : Option (List String)
  FileFingerprints : List FileFingerprint
  Assessment : Option Assessment
  AssessmentRaw : Option JNode

/-- Line scan of `isMultiDocument`: a `---` line strictly after line 1 makes
the file multi-document, stopping at the first separator.  (`lineNo` is the
number of lines already consumed.) -/
def multiDocScan (lineNo : Nat) : List String → Bool
  | [] => false
  | line :: rest =>
    let lineNo := lineNo + 1
    if lineNo > 1 ∧ line = "---" then true else multiDocScan lineNo rest

/-- `Result.isMultiDocument` from `pkg/tools`.  The filesystem is `fs`,
mapping a path to its lines; `none` models a read failure, which leaves the
flag false (the Go code logs the error and returns the flag; the line
iteration itself is `util.ForEachLine`, modelled from the spec: a line
callback with early stop, read failure treated as "not multi-document"). -/
def Result.isMultiDocument (fs : String → Option (List String)) (r : Result)
    (path : String) : Bool :=
  let path := if isAbsPath path then path else joinPath r.Directory path
  if hasSuffixStr path ".yaml" ∨ hasSuffixStr path ".yml" then
    match fs path with
    | none => false
    | some lines => multiDocScan 0 lines
  else false

/-- The grouping key built by `UpdateFileFingerprints` with
`fmt.Sprintf` from the file path and line. -/
def findingKey (f : Finding) : String := f.filePath ++ ":" ++ intReprStr f.line

/-- The loop of `UpdateFileFingerprints`: first-seen grouping of findings by
`findingKey` into `m`, and a per-file cache `md` of multi-document status. -/
def updateLoop (fs : String → Option (List String)) (r : Result) :
    List Finding → List (String × Finding) × List (String × Bool) →
    List (String × Finding) × List (String × Bool)
  | [], st => st
  | f :: rest, (m, md) =>
    let key := findingKey f
    let m := if (m.lookup key).isSome then m else m ++ [(key, f)]
    let md := if (md.lookup f.filePath).isSome then md
      else md ++ [(f.filePath, r.isMultiDocument fs f.filePath)]
    updateLoop fs r rest (m, md)

/-- `Result.UpdateFileFingerprints` from `pkg/tools`.  The fingerprint
function `fpFn` models `assessments.Findings.ComputePartialFingerprints`
(`pkg/assessments` is not among the provided sources; per the spec it is a
pure, deterministic per-finding computation), applied in place to the
findings before grouping. -/
def Result.UpdateFileFingerprints (fs : String → Option (List String))
    (fpFn : String → Int → String) (r : Result) : Result :=
  if r.Directory = "" then r
  else
    let findings := r.Findings.map
      (List.map (fun f => { f with partialFingerprint := fpFn f.filePath f.line }))
    let loop := updateLoop fs r (findings.getD []) ([], [])
    { r with
      Findings := findings
      FileFingerprints := loop.1.map (fun kv =>
        { filePath := kv.2.filePath
          partialFingerprint := kv.2.partialFingerprint
          line := kv.2.line
          repoPath := kv.2.repoPath
          multiDocumentFile := (loop.2.lookup kv.2.filePath).getD false }) }

/-- The well-known repository-identity files probed by `Upload`. -/
def repoFiles : List String :=
  [".lacework/config.yml",
   ".soluble/config.yml",
   "CODEOWNERS",
   "docs/CODEOWNERS",
   ".github/CODEOWNERS"]

/-- External collaborators of `Upload`: repository-root detection
(`inventory.FindRepoRoot`, the empty string for none), `os.Stat` file sizes
(`none` for an error), `os.Open` success, the two JSON encoders
(`json.Marshal`, which may fail), the HTTP post (`api.Client.XCPPost`) and the
assessment decoder (`json.Unmarshal` into `Assessment`, `none` for a decode
error). -/
structure UploadEnv where
  findRepoRoot : String → String
  statSize : String → Option Nat
  openOk : String → Bool
  encodeFindings : List Finding → Except String (List Nat)
  encodeFingerprints : List FileFingerprint → Except String (List Nat)
  post : List (String × String) → List String → Except String JNode
  parseAssessment : JNode → Option Assessment

/-- `Result.attachFindings` from `pkg/tools`: the marshalled findings as a
reader, or `none` (a nil `io.Reader`) when marshalling fails. -/
def Result.attachFindings (enc : List Finding → Except String (List Nat))
    (r : Result) : Option (List Nat) :=
  match enc (r.Findings.getD []) with
  | .ok d => some d
  | .error _ => none

/-- `Result.attachFingerprints` from `pkg/tools`: the marshalled fingerprints
as a reader.  When marshalling fails the Go function logs a warning but has no
early return, so it still returns `bytes.NewReader(d)` with `d` nil — a
non-nil reader over empty content, modelled as `some []`. -/
def Result.attachFingerprints (enc : List FileFingerprint → Except String (List Nat))
    (r : Result) : Option (List Nat) :=
  match enc r.FileFingerprints with
  | .ok d => some d
  | .error _ => some []

/-- The repository-identity file parts attached by `Upload`: for each
well-known path under the detected repo root, skip stat errors and zero-length
or unopenable files, and attach at most one file part per basename. -/
def repoFileParts (env : UploadEnv) (dir : String) : List String :=
  (repoFiles.foldl
    (fun (acc : List String × List String) path =>
      let p := joinPath dir path
      match env.statSize p with
      | none => acc
      | some sz =>
        if sz = 0 then acc
        else if env.openOk p then
          let nm := baseName path
          if acc.1.contains nm then acc else (acc.1 ++ [nm], acc.2 ++ [nm])
        else acc)
    ([], [])).2

/-- The named file parts of the multipart request `Upload` sends, in order:
the raw results document, any repository-identity files, then — when the
findings slice is non-nil — the findings part (omitted if marshalling fails)
and the fingerprints part (as returned by `attachFingerprints`). -/
def Result.uploadParts (env : UploadEnv) (r : Result) : List String :=
  let parts := ["results_json"]
  let dir := env.findRepoRoot r.Directory
  let parts := if dir ≠ "" then parts ++ repoFileParts env dir else parts
  match r.Findings with
  | some _ =>
    let parts := match r.attachFindings env.encodeFindings with
      | some _ => parts ++ ["findings_json"]
      | none => parts
    match r.attachFingerprints env.encodeFingerprints with
    | some _ => parts ++ ["fingerprints_json"]
    | none => parts
  | none => parts

/-- `Result.Upload` from `pkg/tools`: send the multipart request; on a
transport error return it; on success, when the response carries an
`assessment` object, record its raw form and — when it decodes — the decoded
`Assessment` (a garbled assessment degrades to "no assessment"). -/
def Result.Upload (env : UploadEnv) (r : Result) : Result × Option String :=
  match env.post r.Values (r.uploadParts env) with
  | .error e => (r, some e)
  | .ok n =>
    let r :=
      if (n.path "assessment").isObject then
        match env.parseAssessment (n.path "assessment") with
        | some a => { r with AssessmentRaw := some (n.path "assessment"),
                             Assessment := some a }
        | none => { r with AssessmentRaw := some (n.path "assessment"),
                           Assessment := none }
      else r
    (r, none)

/-- `Tool.parseResults` of the terrascan adapter.  The exclusion predicate
(`DirectoryBasedToolOpts.IsExcluded`) and scan directory are passed in. -/
def terrascanParseResults (excluded : String → Bool) (dir : String) (n : JNode) : Result :=
  let violations := (n.path "results").path "violations"
  if 0 < violations.size then
    let violations := removeJNodeElementsIf violations
      (fun e => excluded ((e.path "file").asText))
    let n := n.mutateField "results" (fun res => res.put "violations" violations)
    let findings := violations.elements.map (fun v =>
      { filePath := (v.path "file").asText
        line := (v.path "line").asInt
        description := (v.path "description").asText
        tool := [("category", (v.path "category").asText),
                 ("rule_id", (v.path "rule_id").asText),
                 ("severity", (v.path "severity").asText)]
        repoPath := ""
        partialFingerprint := "" })
    { Data := n, Findings := some findings, Values := [], Directory := dir,
      Files := none, FileFingerprints := [], Assessment := none, AssessmentRaw := none }
  else
    { Data := n, Findings := some [], Values := [], Directory := dir,
      Files := none, FileFingerprints := [], Assessment := none, AssessmentRaw := none }

/-- `Tool.parseResults` of the hadolint adapter. -/
def hadolintParseResults (excluded : String → Bool) (dir : String) (results : JNode) : Result :=
  let findings := results.elements.filterMap (fun data =>
    if excluded ((data.path "file").asText) then none
    else some
      { filePath := (data.path "file").asText
        line := (data.path "line").asInt
        description := ""
        tool := [("rule_id", (data.path "code").asText),
                 ("message", (data.path "message").asText),
                 ("severity", (data.path "level").asText),
                 ("file", (data.path "file").asText),
                 ("line", (data.path "line").asText)]
        repoPath := ""
        partialFingerprint := "" })
  let resultsArray := removeJNodeElementsIf results
    (fun nd => excluded ((nd.path "file").asText))
  { Data := resultsArray, Findings := some findings, Values := [], Directory := dir,
    Files := none, FileFingerprints := [], Assessment := none, AssessmentRaw := none }

/-- The flags `appendProxyEnv` contributes for a single environment variable
name: `-e NAME` when set non-empty, else nothing. -/
def proxyFlag (getenv : String → String) (k : String) : List String :=
  if getenv k ≠ "" then ["-e", k] else []

/-- The full suffix `appendProxyEnv` appends to the incoming argument list. -/
def proxySuffix (getenv : String → String) : List String :=
  appendProxyEnv getenv []

/-- An SSH-style git remote of the literal shape `git@HOST:PATH.git`. -/
def isSSHRemoteShape (s : String) : Prop :=
  ∃ host path, s = "git@" ++ host ++ ":" ++ path ++ ".git"

/-- The `(filePath, line)` grouping key of a finding. -/
def findingLocation (f : Finding) : String × Int := (f.filePath, f.line)

/-- Concrete docker tool used to witness the trace statements. -/
def sampleDockerTool : DockerTool :=
  { Name := "tool", Image := "example/image", DockerArgs := [], Args := [],
    DefaultNoDockerName := "", PolicyDirectory := "", hasStdout := false,
    hasStderr := false, Directory := "" }

/-- Concrete environment with only `HTTP_PROXY` set. -/
def sampleProxyEnv : String → String :=
  fun k => if k = "HTTP_PROXY" then "http://proxy.example:3128" else ""

/-- Concrete process environment with one CI key and one sensitive key. -/
def sampleCIEnv : List (String × String) :=
  [("github_ref", "refs/heads/main"), ("AWS_SECRET_ACCESS_KEY", "abc")]

/-- Two findings at the same `(filePath, line)` location. -/
def sampleFindingA : Finding :=
  { filePath := "main.tf", line := 10, description := "first", tool := [],
    repoPath := "", partialFingerprint := "" }

/-- Second finding at the location of `sampleFindingA`. -/
def sampleFindingB : Finding :=
  { filePath := "main.tf", line := 10, description := "second", tool := [],
    repoPath := "", partialFingerprint := "" }

/-- A result holding the two duplicate-location findings. -/
def sampleDupResult : Result :=
  { Data := JNode.missing, Findings := some [sampleFindingA, sampleFindingB],
    Values := [], Directory := "/repo", Files := none, FileFingerprints := [],
    Assessment := none, AssessmentRaw := none }

/-- A result with a non-nil (empty) findings slice, for the upload claims. -/
def sampleUploadResult : Result :=
  { Data := JNode.missing, Findings := some [], Values := [], Directory := "",
    Files := none, FileFingerprints := [], Assessment := none, AssessmentRaw := none }

/-- Upload collaborators in which marshalling the fingerprints fails. -/
def fingerprintsFailEnv : UploadEnv :=
  { findRepoRoot := fun _ => "", statSize := fun _ => none, openOk := fun _ => false,
    encodeFindings := fun _ => Except.ok [], encodeFingerprints := fun _ => Except.error "marshal error",
    post := fun _ _ => Except.ok JNode.missing, parseAssessment := fun _ => none }

/-- Upload collaborators in which marshalling the findings fails. -/
def findingsFailEnv : UploadEnv :=
  { findRepoRoot := fun _ => "", statSize := fun _ => none, openOk := fun _ => false,
    encodeFindings := fun _ => Except.error "marshal error", encodeFingerprints := fun _ => Except.ok [],
    post := fun _ _ => Except.ok JNode.missing, parseAssessment := fun _ => none }

/-- The grouping key as a function of the `(filePath, line)` location. -/
def locationKey (pr : String × Int) : String := pr.1 ++ ":" ++ intReprStr pr.2

/-! Verification statements. -/

@[simp] theorem data_toUpperStr (s : String) : (toUpperStr s).data = s.data.map Char.toUpper :=
  rfl

theorem char_toNat_ofNat (n : Nat) (h : n.isValidChar) : (Char.ofNat n).toNat = n := by
  simp only [Char.ofNat, h, dite_true, Char.ofNatAux, Char.toNat, UInt32.toNat, UInt32.ofNat',
    BitVec.toNat_ofNatLt]

theorem char_toUpper_idem (c : Char) : c.toUpper.toUpper = c.toUpper := by
  unfold Char.toUpper
  by_cases h : c.toNat ≥ 97 ∧ c.toNat ≤ 122
  · have hv : (c.toNat - 32).isValidChar := by
      unfold Nat.isValidChar
      omega
    have ht : (Char.ofNat (c.toNat - 32)).toNat = c.toNat - 32 := char_toNat_ofNat _ hv
    rw [if_pos h, ht, if_neg (by omega)]
  · rw [if_neg h, if_neg h]

theorem toUpperStr_idem (s : String) : toUpperStr (toUpperStr s) = toUpperStr s := by
  apply String.ext
  simp only [data_toUpperStr, List.map_map]
  exact List.map_congr_left fun c _ => char_toUpper_idem c

/-- C2: the daemon probe classifies exit codes exactly — 0 gives no error, 1
gives the daemon-not-running error, 127 gives the daemon-not-installed error
and every other code gives the unknown error — and in `DockerTool.run` the
probe precedes image pull and container run, so a probe failure produces a
trace containing neither. -/
theorem c2_daemon_probe_classification (code : Int) (t : DockerTool) (skipPull : Bool)
    (getenv : String → String) :
    hasDocker 0 = none ∧
    hasDocker 1 = some daemonNotRunning ∧
    hasDocker 127 = some daemonNotInstalled ∧
    (code ≠ 0 → code ≠ 1 → code ≠ 127 → hasDocker code = some daemonUnknownError) ∧
    (∀ e, hasDocker code = some e →
      t.runModel code skipPull getenv = ([RunEvent.probeDaemon], Except.error e)) := by
  refine ⟨by decide, by decide, by decide, ?_, ?_⟩
  · intro h0 h1 h127
    unfold hasDocker
    rw [if_neg h0, if_neg h1, if_neg h127]
  · intro e he
    unfold DockerTool.runModel
    rw [he]

/-- Witness for C2 at the concrete exit code 5 and a concrete tool: the code
classifies as the unknown daemon error and the run trace stops at the probe. -/
theorem c2_daemon_probe_classification_witness :
    hasDocker 5 = some daemonUnknownError ∧
    sampleDockerTool.runModel 5 false (fun _ => "") =
      ([RunEvent.probeDaemon], Except.error daemonUnknownError) := by
  have h := c2_daemon_probe_classification 5 sampleDockerTool false (fun _ => "")
  have hc : hasDocker 5 = some daemonUnknownError :=
    h.2.2.2.1 (by decide) (by decide) (by decide)
  exact ⟨hc, h.2.2.2.2 daemonUnknownError hc⟩

/-- C8 (code bug): when marshalling the findings fails the findings part is
omitted, but when marshalling the fingerprints fails `attachFingerprints`
still returns a (non-nil) reader over empty content — the Go method lacks the
early return — so the `fingerprints_json` part is attached rather than
omitted. -/
theorem c8_fingerprints_part_not_omitted :
    Result.attachFindings (fun _ => Except.error "marshal error") sampleUploadResult = none ∧
    Result.attachFingerprints (fun _ => Except.error "marshal error") sampleUploadResult =
      some [] ∧
    sampleUploadResult.uploadParts findingsFailEnv = ["results_json", "fingerprints_json"] ∧
    sampleUploadResult.uploadParts fingerprintsFailEnv =
      ["results_json", "findings_json", "fingerprints_json"] := by
  refine ⟨rfl, rfl, by decide, by decide⟩

/-- C9: `Upload` never changes the findings, the raw document, the
fingerprints, the directory, the file set or the values of the result — on the
error path and the success path alike; only the assessment fields may be set. -/
theorem c9_upload_frame (env : UploadEnv) (r : Result) :
    ((r.Upload env).1).Findings = r.Findings ∧
    ((r.Upload env).1).Data = r.Data ∧
    ((r.Upload env).1).FileFingerprints = r.FileFingerprints ∧
    ((r.Upload env).1).Directory = r.Directory ∧
    ((r.Upload env).1).Files = r.Files ∧
    ((r.Upload env).1).Values = r.Values := by
  unfold Result.Upload
  cases hp : env.post r.Values (r.uploadParts env) with
  | error e => simp
  | ok n =>
    by_cases ho : (n.path "assessment").isObject
    · cases hpa : env.parseAssessment (n.path "assessment") <;> simp [ho, hpa]
    · simp [ho]

/-- Normal form of `appendProxyEnv`: the incoming arguments followed by one
optional `-e NAME` block per variable, exact case before lower case. -/
theorem appendProxyEnv_eq (getenv : String → String) (args : List String) :
    appendProxyEnv getenv args =
      args ++ proxyFlag getenv "HTTP_PROXY" ++ proxyFlag getenv "http_proxy"
        ++ proxyFlag getenv "HTTPS_PROXY" ++ proxyFlag getenv "https_proxy"
        ++ proxyFlag getenv "NO_PROXY" ++ proxyFlag getenv "no_proxy" := by
  have h1 : toLowerStr "HTTP_PROXY" = "http_proxy" := by decide
  have h2 : toLowerStr "HTTPS_PROXY" = "https_proxy" := by decide
  have h3 : toLowerStr "NO_PROXY" = "no_proxy" := by decide
  simp only [appendProxyEnv, List.foldl_cons, List.foldl_nil, h1, h2, h3, proxyFlag]
  split_ifs <;> simp [List.append_assoc]

/-- A proxy-variable name contributes to the count of a string other than the
flag `-e` exactly when the variable is set and the string is its name. -/
theorem count_proxyFlag_name (getenv : String → String) (k x : String) (hx : x ≠ "-e") :
    (proxyFlag getenv k).count x = if getenv k ≠ "" ∧ x = k then 1 else 0 := by
  unfold proxyFlag
  by_cases hk : getenv k ≠ ""
  · by_cases hxk : x = k
    · subst hxk
      simp [hk, List.count_cons, hx, Ne.symm hx]
    · simp [hk, hxk, List.count_cons, hx, Ne.symm hx, Ne.symm hxk]
  · simp [hk]

/-- Every element of a proxy flag block is the flag or the variable name. -/
theorem mem_proxyFlag (getenv : String → String) (k x : String)
    (hx : x ∈ proxyFlag getenv k) : x = "-e" ∨ x = k := by
  unfold proxyFlag at hx
  split_ifs at hx <;> simp_all

/-- C6: `appendProxyEnv` only ever appends to the given argument vector; what
it appends consists solely of `-e` flags and the six proxy variable names
(never a variable's value); and per variable name, exactly one `-e NAME` flag
is added when the exact-case variable is set non-empty and the lower-case one
is not, symmetrically for the lower-case variant, and nothing when neither is
set. -/
theorem c6_proxy_forwarding (getenv : String → String) (args : List String) :
    appendProxyEnv getenv args = args ++ proxySuffix getenv ∧
    (∀ x ∈ proxySuffix getenv,
      x ∈ (["-e", "HTTP_PROXY", "http_proxy", "HTTPS_PROXY", "https_proxy",
            "NO_PROXY", "no_proxy"] : List String)) ∧
    ∀ k lk, (k, lk) ∈ [("HTTP_PROXY", "http_proxy"), ("HTTPS_PROXY", "https_proxy"),
           ("NO_PROXY", "no_proxy")] →
      (getenv k ≠ "" → getenv lk = "" →
        (proxySuffix getenv).count k = 1 ∧ (proxySuffix getenv).count lk = 0) ∧
      (getenv k = "" → getenv lk ≠ "" →
        (proxySuffix getenv).count lk = 1 ∧ (proxySuffix getenv).count k = 0) ∧
      (getenv k = "" → getenv lk = "" →
        (proxySuffix getenv).count k = 0 ∧ (proxySuffix getenv).count lk = 0) := by
  refine ⟨?_, ?_, ?_⟩
  · rw [appendProxyEnv_eq, proxySuffix, appendProxyEnv_eq]
    simp [List.append_assoc]
  · intro x hx
    rw [proxySuffix, appendProxyEnv_eq] at hx
    simp only [List.nil_append, List.mem_append] at hx
    rcases hx with ((((h | h) | h) | h) | h) | h <;>
      rcases mem_proxyFlag getenv _ x h with rfl | rfl <;> simp
  · intro k lk hp
    fin_cases hp <;>
      refine ⟨fun h1 h2 => ?_, fun h1 h2 => ?_, fun h1 h2 => ?_⟩ <;>
        · rw [proxySuffix, appendProxyEnv_eq]
          simp [List.count_append, count_proxyFlag_name, h1, h2]

/-- Witness for C6: with only `HTTP_PROXY` set, the suffix holds exactly one
`HTTP_PROXY` flag and no `http_proxy` flag. -/
theorem c6_proxy_forwarding_witness :
    (proxySuffix sampleProxyEnv).count "HTTP_PROXY" = 1 ∧
    (proxySuffix sampleProxyEnv).count "http_proxy" = 0 :=
  ((c6_proxy_forwarding sampleProxyEnv []).2.2 "HTTP_PROXY" "http_proxy"
    (by decide)).1 (by decide) (by decide)

/-- The separator scan finds a `---` line exactly when one exists strictly
after the first line (counting the `lineNo` lines already consumed). -/
theorem multiDocScan_iff (ls : List String) : ∀ n,
    multiDocScan n ls = true ↔ ∃ i, 1 ≤ n + i ∧ ls.get? i = some "---" := by
  induction ls with
  | nil => simp [multiDocScan]
  | cons l rest ih =>
    intro n
    unfold multiDocScan
    by_cases hc : n + 1 > 1 ∧ l = "---"
    · rw [if_pos hc]
      simp only [true_iff]
      exact ⟨0, by omega, by simp [hc.2]⟩
    · rw [if_neg hc, ih (n + 1)]
      constructor
      · rintro ⟨i, hi, hg⟩
        exact ⟨i + 1, by omega, by simpa using hg⟩
      · rintro ⟨i, hi, hg⟩
        cases i with
        | zero =>
          simp only [List.get?_cons_zero, Option.some.injEq] at hg
          exact absurd ⟨by omega, hg⟩ hc
        | succ j => exact ⟨j, by omega, by simpa using hg⟩

/-- C4: `isMultiDocument` is true exactly when the probed path (the given path
resolved against the result directory) ends in `.yaml` or `.yml` and its
readable contents contain a line equal to `---` strictly after line 1; in
particular a `.yml` file whose only `---` is its first line, any non-YAML
path (such as `.json`), and any unreadable file all yield `false`. -/
theorem c4_isMultiDocument (fs : String → Option (List String)) (r : Result) (path : String) :
    r.isMultiDocument fs path = true ↔
      ((hasSuffixStr (if isAbsPath path then path else joinPath r.Directory path) ".yaml" ∨
        hasSuffixStr (if isAbsPath path then path else joinPath r.Directory path) ".yml") ∧
       ∃ lines, fs (if isAbsPath path then path else joinPath r.Directory path) = some lines ∧
         ∃ i, 1 ≤ i ∧ lines.get? i = some "---") := by
  unfold Result.isMultiDocument
  by_cases hs : hasSuffixStr (if isAbsPath path then path else joinPath r.Directory path) ".yaml"
    ∨ hasSuffixStr (if isAbsPath path then path else joinPath r.Directory path) ".yml"
  · rw [if_pos hs]
    cases hf : fs (if isAbsPath path then path else joinPath r.Directory path) with
    | none => simp [hf]
    | some lines => simp [hf, hs, multiDocScan_iff]
  · rw [if_neg hs]
    simp [hs]

/-- Membership after a Go-style map assignment: the binding was already there
or carries the assigned key. -/
theorem mem_mapPut (m : List (String × String)) (k v : String) (kv : String × String)
    (hkv : kv ∈ mapPut m k v) : kv ∈ m ∨ kv.1 = k := by
  unfold mapPut at hkv
  split_ifs at hkv with hany
  · rcases List.mem_map.mp hkv with ⟨orig, ho, heq⟩
    by_cases hok : orig.1 = k
    · right
      rw [← heq]
      simp [hok]
    · left
      rw [← heq]
      simp only [hok, if_false]
      exact ho
  · rcases List.mem_append.mp hkv with h | h
    · left
      exact h
    · right
      simp only [List.mem_singleton] at h
      rw [h]

/-- A key predicate survives a map assignment whose key satisfies it. -/
theorem mapPut_preserves (Q : String → Prop) (m : List (String × String)) (k v : String)
    (hm : ∀ kv ∈ m, Q kv.1) (hk : Q k) : ∀ kv ∈ mapPut m k v, Q kv.1 := by
  intro kv hkv
  rcases mem_mapPut m k v kv hkv with h | h
  · exact hm kv h
  · rw [h]
    exact hk

/-- One step of the environment loop either keeps the stored bindings or adds
the uppercased key of an entry that passed both deny filters. -/
theorem envLoopStep_fst (acc : List (String × String) × String) (kv : String × String) :
    (envLoopStep acc kv).1 = acc.1 ∨
    ((envLoopStep acc kv).1 = mapPut acc.1 (toUpperStr kv.1) kv.2 ∧
      (substringOmitEnv.any fun s => containsStr (toUpperStr kv.1) s) = false ∧
      (explicitOmitEnv.any fun s => toUpperStr kv.1 = s) = false) := by
  simp only [envLoopStep]
  split_ifs <;>
    first
      | (left; rfl)
      | (right
         refine ⟨rfl, by simp_all, ?_⟩
         simp only [List.any_eq_false, decide_eq_true_eq]
         intro x hx hxe
         subst hxe
         simp_all)

/-- Invariant of the environment loop: every key it stores is the uppercased
form of an environment key that passed both deny filters. -/
theorem foldl_envLoopStep_inv (Q : String → Prop)
    (hup : ∀ k₀ : String,
      substringOmitEnv.any (fun s => containsStr (toUpperStr k₀) s) = false →
      explicitOmitEnv.any (fun s => toUpperStr k₀ = s) = false →
      Q (toUpperStr k₀)) :
    ∀ (l : List (String × String)) (acc : List (String × String) × String),
      (∀ kv ∈ acc.1, Q kv.1) → ∀ kv ∈ (l.foldl envLoopStep acc).1, Q kv.1 := by
  intro l
  induction l with
  | nil =>
    intro acc hacc
    simpa using hacc
  | cons hd tl ih =>
    intro acc hacc
    rw [List.foldl_cons]
    apply ih
    intro kv hkv
    rcases envLoopStep_fst acc hd with h | ⟨heq, hsub, hexp⟩
    · rw [h] at hkv
      exact hacc kv hkv
    · rw [heq] at hkv
      rcases mem_mapPut _ _ _ kv hkv with h' | h'
      · exact hacc kv h'
      · rw [h']
        exact hup hd.1 hsub hexp

/-- A key predicate survives the git-metadata fold when it holds for every
metadata key. -/
theorem foldl_mapPutGit_inv (git : String → Option String) (Q : String → Prop) :
    ∀ (ks : List String) (m : List (String × String)),
      (∀ k ∈ ks, Q k) → (∀ kv ∈ m, Q kv.1) →
      ∀ kv ∈ ks.foldl (fun values k =>
          match git k with
          | some out => mapPut values k (trimSpace out)
          | none => values) m, Q kv.1 := by
  intro ks
  induction ks with
  | nil =>
    intro m _ hm
    simpa using hm
  | cons hd tl ih =>
    intro m hks hm
    rw [List.foldl_cons]
    apply ih _ (fun k hk => hks k (List.mem_cons_of_mem _ hk))
    cases hg : git hd with
    | none => simpa [hg] using hm
    | some out =>
      simp only [hg]
      exact mapPut_preserves Q m hd (trimSpace out) hm (hks hd (List.mem_cons_self _ _))

/-- Every key of the collected CI environment either survived the deny filters
as an uppercased environment key or is one of the fixed metadata keys. -/
theorem getCIEnv_keys (env : List (String × String)) (git : String → Option String)
    (host : Option String) (Q : String → Prop)
    (hup : ∀ k₀ : String,
      substringOmitEnv.any (fun s => containsStr (toUpperStr k₀) s) = false →
      explicitOmitEnv.any (fun s => toUpperStr k₀ = s) = false →
      Q (toUpperStr k₀))
    (hcisys : Q "SOLUBLE_METADATA_CI_SYSTEM")
    (hgit : ∀ k ∈ metadataCommandKeys, Q k)
    (hremote : Q "SOLUBLE_METADATA_GIT_REMOTE")
    (hhost : Q "SOLUBLE_METADATA_HOSTNAME") :
    ∀ kv ∈ GetCIEnv env git host, Q kv.1 := by
  have h0 : ∀ kv ∈ (env.foldl envLoopStep ([], "")).1, Q kv.1 :=
    foldl_envLoopStep_inv Q hup env ([], "") (by simp)
  have h1 := mapPut_preserves Q (env.foldl envLoopStep ([], "")).1
    "SOLUBLE_METADATA_CI_SYSTEM" (env.foldl envLoopStep ([], "")).2 h0 hcisys
  have h2 := foldl_mapPutGit_inv git Q metadataCommandKeys _ hgit h1
  simp only [GetCIEnv]
  cases host with
  | none =>
    split_ifs with hb
    · exact mapPut_preserves Q _ "SOLUBLE_METADATA_GIT_REMOTE" _ h2 hremote
    · exact h2
  | some h =>
    split_ifs with hb
    · exact mapPut_preserves Q _ "SOLUBLE_METADATA_HOSTNAME" h
        (mapPut_preserves Q _ "SOLUBLE_METADATA_GIT_REMOTE" _ h2 hremote) hhost
    · exact mapPut_preserves Q _ "SOLUBLE_METADATA_HOSTNAME" h h2 hhost

/-- C1: no key of the collected CI environment has an uppercased form that
contains a sensitive-term substring or equals an entry of the explicit deny
list, for every process environment, git outcome and hostname. -/
theorem c1_env_redaction (env : List (String × String)) (git : String → Option String)
    (host : Option String) :
    ∀ kv ∈ GetCIEnv env git host,
      substringOmitEnv.all (fun s => !containsStr (toUpperStr kv.1) s) = true ∧
      toUpperStr kv.1 ∉ explicitOmitEnv := by
  refine getCIEnv_keys env git host
    (fun key => substringOmitEnv.all (fun s => !containsStr (toUpperStr key) s) = true ∧
      toUpperStr key ∉ explicitOmitEnv)
    ?_ (by decide) (by decide) (by decide) (by decide)
  intro k₀ hsub hexp
  constructor
  · rw [toUpperStr_idem]
    simp only [List.any_eq_false] at hsub
    simp only [List.all_eq_true, Bool.not_eq_true']
    intro s hs
    simpa using hsub s hs
  · rw [toUpperStr_idem]
    intro hmem
    simp only [List.any_eq_false, decide_eq_true_eq] at hexp
    exact hexp _ hmem rfl

/-- Witness for C1: with a lower-case CI key and a sensitive AWS key in the
environment, the collected map contains the uppercased CI key, and that key
passes both deny filters. -/
theorem c1_env_redaction_witness :
    ("GITHUB_REF", "refs/heads/main") ∈ GetCIEnv sampleCIEnv (fun _ => none) none ∧
    (substringOmitEnv.all (fun s => !containsStr (toUpperStr "GITHUB_REF") s) = true ∧
      toUpperStr "GITHUB_REF" ∉ explicitOmitEnv) := by
  have hm : ("GITHUB_REF", "refs/heads/main") ∈ GetCIEnv sampleCIEnv (fun _ => none) none := by
    decide
  exact ⟨hm, c1_env_redaction sampleCIEnv (fun _ => none) none _ hm⟩

/-- The first `@` of a string beginning `git@` is at index 3. -/
theorem firstOccur_at (tail : List Char) :
    firstOccur ['@'] ('g' :: 'i' :: 't' :: '@' :: tail) = some 3 := by
  simp [firstOccur, List.isPrefixOf]

/-- The last occurrence of `.git` in a string ending with it starts where the
prefix ends. -/
theorem lastOccur_dotgit (pre : List Char) :
    lastOccur ['.', 'g', 'i', 't'] (pre ++ ['.', 'g', 'i', 't']) = some pre.length := by
  induction pre with
  | nil => decide
  | cons c t ih => simp [lastOccur, ih]

/-- The first colon after a colon-free prefix is the separating colon. -/
theorem firstOccur_colon (H : List Char) (tail : List Char) (hH : ':' ∉ H) :
    firstOccur [':'] (H ++ ':' :: tail) = some H.length := by
  induction H with
  | nil => simp [firstOccur, List.isPrefixOf]
  | cons c t ih =>
    have hc : c ≠ ':' := fun h => hH (h ▸ List.mem_cons_self c t)
    have ih' := ih (fun h => hH (List.mem_cons_of_mem _ h))
    simp [firstOccur, List.isPrefixOf, Ne.symm hc, ih']

/-- Dropping a prefix and its following separator leaves the tail. -/
theorem drop_append_cons (l₁ : List Char) (c : Char) (l₂ : List Char) :
    (l₁ ++ c :: l₂).drop (l₁.length + 1) = l₂ := by
  induction l₁ with
  | nil => simp
  | cons x t ih => simpa using ih

/-- C5 (amended): an SSH remote `git@HOST:PATH.git` with a colon-free HOST
normalizes to exactly `HOST/PATH`, and an input with no `@` at a positive
index or no `.git` at a positive index passes through unchanged.  (Inputs
meeting both index conditions are rewritten even when they are not of the SSH
shape; see the counterexample.) -/
theorem c5_normalizeGitRemote (host path s : String) (hcolon : (':' : Char) ∉ host.data) :
    normalizeGitRemote ("git@" ++ host ++ ":" ++ path ++ ".git") = host ++ "/" ++ path ∧
    ((strIndex s "@" ≤ 0 ∨ strLastIndex s ".git" ≤ 0) → normalizeGitRemote s = s) := by
  constructor
  · have hdata : ("git@" ++ host ++ ":" ++ path ++ ".git").data =
        'g' :: 'i' :: 't' :: '@' :: (host.data ++ ':' :: (path.data ++ ['.', 'g', 'i', 't'])) := by
      simp [String.data_append, List.append_assoc]
    have hdata2 : ("git@" ++ host ++ ":" ++ path ++ ".git").data =
        ('g' :: 'i' :: 't' :: '@' :: (host.data ++ ':' :: path.data)) ++ ['.', 'g', 'i', 't'] := by
      rw [hdata]
      simp [List.append_assoc]
    have hidx : strIndex ("git@" ++ host ++ ":" ++ path ++ ".git") "@" = 3 := by
      unfold strIndex
      rw [show ("@" : String).data = ['@'] from rfl, hdata, firstOccur_at]
      rfl
    have hlast : strLastIndex ("git@" ++ host ++ ":" ++ path ++ ".git") ".git" =
        (('g' :: 'i' :: 't' :: '@' :: (host.data ++ ':' :: path.data)).length : Int) := by
      unfold strLastIndex
      rw [show (".git" : String).data = ['.', 'g', 'i', 't'] from rfl, hdata2, lastOccur_dotgit]
    have hpos : (0 : Int) <
        (('g' :: 'i' :: 't' :: '@' :: (host.data ++ ':' :: path.data)).length : Int) := by
      have : 0 < ('g' :: 'i' :: 't' :: '@' :: (host.data ++ ':' :: path.data)).length := by simp
      exact_mod_cast this
    unfold normalizeGitRemote
    rw [hidx, hlast, if_pos ⟨by norm_num, hpos⟩]
    unfold strSlice
    rw [hdata2, Int.toNat_ofNat, show ((3 : Int)).toNat + 1 = 4 from rfl, List.take_left]
    have hdrop4 : ('g' :: 'i' :: 't' :: '@' :: (host.data ++ ':' :: path.data)).drop 4 =
        host.data ++ ':' :: path.data := rfl
    rw [hdrop4]
    unfold replaceFirst
    rw [show ((":" : String)).data = [':'] from rfl,
      show (String.mk (host.data ++ ':' :: path.data)).data = host.data ++ ':' :: path.data
        from rfl,
      firstOccur_colon host.data path.data hcolon]
    apply String.ext
    rw [show (String.mk (((host.data ++ ':' :: path.data).take host.data.length) ++
        ("/" : String).data ++
        ((host.data ++ ':' :: path.data).drop (host.data.length + (":" : String).data.length)))).data
        = ((host.data ++ ':' :: path.data).take host.data.length) ++ ("/" : String).data ++
          ((host.data ++ ':' :: path.data).drop (host.data.length + (":" : String).data.length))
        from rfl]
    rw [show (":" : String).data.length = 1 from rfl, show ("/" : String).data = ['/'] from rfl,
      List.take_left, drop_append_cons]
    simp [String.data_append]
  · intro hle
    unfold normalizeGitRemote
    rw [if_neg (by omega)]

/-- Counterexample to C5 as stated: `https://user@host/path.git` is not of the
SSH-remote shape, yet `normalizeGitRemote` rewrites it instead of returning it
unchanged. -/
theorem c5_claim_counterexample :
    ¬ isSSHRemoteShape "https://user@host/path.git" ∧
    normalizeGitRemote "https://user@host/path.git" ≠ "https://user@host/path.git" := by
  constructor
  · rintro ⟨h, p, heq⟩
    have hd := congrArg String.data heq
    simp only [String.data_append] at hd
    simp at hd
  · decide

/-- Witness for C5: a real SSH remote is rewritten to host/path form and a
plain HTTPS remote without `@` passes through unchanged. -/
theorem c5_normalizeGitRemote_witness :
    normalizeGitRemote "git@github.com:fizz/buzz.git" = "github.com/fizz/buzz" ∧
    normalizeGitRemote "https://host/path.git" = "https://host/path.git" := by
  constructor
  · have h := (c5_normalizeGitRemote "github.com" "fizz/buzz" "" (by decide)).1
    rw [show ("git@" ++ "github.com" ++ ":" ++ "fizz/buzz" ++ ".git" : String) =
        "git@github.com:fizz/buzz.git" from by decide,
      show ("github.com" ++ "/" ++ "fizz/buzz" : String) = "github.com/fizz/buzz"
        from by decide] at h
    exact h
  · exact (c5_normalizeGitRemote "x" "y" "https://host/path.git" (by decide)).2
      (Or.inl (by decide))

/-- Every character of a natural number's decimal rendering is a digit. -/
theorem natRepr_chars (n : Nat) : ∀ c ∈ natRepr n, 48 ≤ c.toNat ∧ c.toNat ≤ 57 := by
  intro c hc
  unfold natRepr at hc
  split_ifs at hc with h
  · simp only [List.mem_singleton] at hc
    subst hc
    decide
  · simp only [List.mem_reverse, List.mem_map] at hc
    obtain ⟨d, hd, rfl⟩ := hc
    have hdlt : d < 10 := Nat.digits_lt_base (by norm_num) hd
    have hv : (48 + d).isValidChar := by
      unfold Nat.isValidChar
      omega
    rw [char_toNat_ofNat _ hv]
    omega

/-- Digit characters determine their digits. -/
theorem map_digitChar_inj : ∀ (l₁ l₂ : List Nat), (∀ x ∈ l₁, x < 10) → (∀ x ∈ l₂, x < 10) →
    l₁.map (fun d => Char.ofNat (48 + d)) = l₂.map (fun d => Char.ofNat (48 + d)) →
    l₁ = l₂ := by
  intro l₁
  induction l₁ with
  | nil =>
    intro l₂ _ _ h
    cases l₂ with
    | nil => rfl
    | cons b u => simp at h
  | cons a t ih =>
    intro l₂ h₁ h₂ h
    cases l₂ with
    | nil => simp at h
    | cons b u =>
      simp only [List.map_cons, List.cons.injEq] at h
      have ha : a < 10 := h₁ a (List.mem_cons_self a t)
      have hb : b < 10 := h₂ b (List.mem_cons_self b u)
      have hva : (48 + a).isValidChar := by
        unfold Nat.isValidChar
        omega
      have hvb : (48 + b).isValidChar := by
        unfold Nat.isValidChar
        omega
      have hab : a = b := by
        have := congrArg Char.toNat h.1
        rw [char_toNat_ofNat _ hva, char_toNat_ofNat _ hvb] at this
        omega
      rw [hab, ih u (fun x hx => h₁ x (List.mem_cons_of_mem _ hx))
        (fun x hx => h₂ x (List.mem_cons_of_mem _ hx)) h.2]

/-- Only zero renders as the single digit `0`. -/
theorem natRepr_eq_zero_digit {n : Nat} (h : natRepr n = ['0']) : n = 0 := by
  unfold natRepr at h
  split_ifs at h with h0
  · exact h0
  · exfalso
    have hmap : (Nat.digits 10 n).map (fun d => Char.ofNat (48 + d)) = ['0'] := by
      have := congrArg List.reverse h
      simpa using this
    cases hdig : Nat.digits 10 n with
    | nil =>
      rw [hdig] at hmap
      simp at hmap
    | cons d rest =>
      rw [hdig] at hmap
      simp only [List.map_cons, List.cons.injEq, List.map_eq_nil_iff] at hmap
      have hdlt : d < 10 := Nat.digits_lt_base (by norm_num) (hdig ▸ List.mem_cons_self d rest)
      have hv : (48 + d).isValidChar := by
        unfold Nat.isValidChar
        omega
      have hd0 : d = 0 := by
        have := congrArg Char.toNat hmap.1
        rw [char_toNat_ofNat _ hv] at this
        have h48 : ('0' : Char).toNat = 48 := by decide
        omega
      apply h0
      rw [← Nat.ofDigits_digits 10 n, hdig, hmap.2, hd0]
      simp [Nat.ofDigits]

/-- Decimal renderings of distinct naturals differ. -/
theorem natRepr_inj {a b : Nat} (h : natRepr a = natRepr b) : a = b := by
  by_cases ha : a = 0 <;> by_cases hb : b = 0
  · rw [ha, hb]
  · subst ha
    exact absurd (natRepr_eq_zero_digit h.symm) hb
  · subst hb
    exact absurd (natRepr_eq_zero_digit h) ha
  · unfold natRepr at h
    rw [if_neg ha, if_neg hb] at h
    have hmap := List.reverse_injective h
    have hdig := map_digitChar_inj (Nat.digits 10 a) (Nat.digits 10 b)
      (fun x hx => Nat.digits_lt_base (by norm_num) hx)
      (fun x hx => Nat.digits_lt_base (by norm_num) hx) hmap
    rw [← Nat.ofDigits_digits 10 a, ← Nat.ofDigits_digits 10 b, hdig]

/-- The colon never occurs in the decimal rendering of an integer. -/
theorem intRepr_colonFree (i : Int) : (':' : Char) ∉ intRepr i := by
  have h58 : (':' : Char).toNat = 58 := by decide
  unfold intRepr
  split_ifs with h
  · intro hmem
    rcases List.mem_cons.mp hmem with hc | hc
    · exact absurd (congrArg Char.toNat hc) (by decide)
    · have := natRepr_chars _ _ hc
      omega
  · intro hmem
    have := natRepr_chars _ _ hmem
    omega

/-- The minus sign never occurs in the rendering of a natural number. -/
theorem natRepr_no_minus (n : Nat) : ('-' : Char) ∉ natRepr n := by
  intro hmem
  have := natRepr_chars _ _ hmem
  have h45 : ('-' : Char).toNat = 45 := by decide
  omega

/-- Decimal renderings of distinct integers differ. -/
theorem intRepr_inj {i j : Int} (h : intRepr i = intRepr j) : i = j := by
  unfold intRepr at h
  split_ifs at h with hi hj hj
  · injection h with h1 h2
    have := natRepr_inj h2
    omega
  · exfalso
    apply natRepr_no_minus j.natAbs
    rw [← h]
    exact List.mem_cons_self _ _
  · exfalso
    apply natRepr_no_minus i.natAbs
    rw [h]
    exact List.mem_cons_self _ _
  · have := natRepr_inj h
    omega

/-- Splitting at the first occurrence of a separator is unique. -/
theorem append_cons_inj_left {α : Type} (c : α) :
    ∀ (a₁ : List α) {a₂ b₁ b₂ : List α}, c ∉ a₁ → c ∉ a₂ →
      a₁ ++ c :: b₁ = a₂ ++ c :: b₂ → a₁ = a₂ ∧ b₁ = b₂ := by
  intro a₁
  induction a₁ with
  | nil =>
    intro a₂ b₁ b₂ _ h₂ h
    cases a₂ with
    | nil => simpa using h
    | cons y u =>
      exfalso
      simp only [List.nil_append, List.cons_append, List.cons.injEq] at h
      exact h₂ (h.1 ▸ List.mem_cons_self y u)
  | cons x t ih =>
    intro a₂ b₁ b₂ h₁ h₂ h
    cases a₂ with
    | nil =>
      exfalso
      simp only [List.cons_append, List.nil_append, List.cons.injEq] at h
      exact h₁ (h.1.symm ▸ List.mem_cons_self x t)
    | cons y u =>
      simp only [List.cons_append, List.cons.injEq] at h
      have := ih (fun hm => h₁ (List.mem_cons_of_mem _ hm))
        (fun hm => h₂ (List.mem_cons_of_mem _ hm)) h.2
      exact ⟨by rw [h.1, this.1], this.2⟩

/-- Splitting at the last occurrence of a separator is unique. -/
theorem append_cons_inj_right {α : Type} (c : α) {a₁ a₂ b₁ b₂ : List α}
    (h₁ : c ∉ b₁) (h₂ : c ∉ b₂) (h : a₁ ++ c :: b₁ = a₂ ++ c :: b₂) :
    a₁ = a₂ ∧ b₁ = b₂ := by
  have hr := congrArg List.reverse h
  simp only [List.reverse_append, List.reverse_cons, List.append_assoc,
    List.singleton_append] at hr
  have := append_cons_inj_left c b₁.reverse (by simpa using h₁) (by simpa using h₂) hr
  exact ⟨List.reverse_injective this.2, List.reverse_injective this.1⟩

/-- Character data of a location key. -/
theorem locationKey_data (pr : String × Int) :
    (locationKey pr).data = pr.1.data ++ ':' :: intRepr pr.2 := by
  unfold locationKey intReprStr
  simp [String.data_append]

/-- The location key is injective: the colon before the line number is the
last colon of the key. -/
theorem locationKey_inj : Function.Injective locationKey := by
  intro x y h
  have hd := congrArg String.data h
  rw [locationKey_data, locationKey_data] at hd
  have := append_cons_inj_right ':' (intRepr_colonFree x.2) (intRepr_colonFree y.2) hd
  have h1 : x.1 = y.1 := String.ext this.1
  have h2 : x.2 = y.2 := intRepr_inj this.2
  exact Prod.ext h1 h2

/-- The per-finding grouping key of `UpdateFileFingerprints` is the location
key of the finding's `(filePath, line)` pair. -/
theorem findingKey_eq (f : Finding) : findingKey f = locationKey (f.filePath, f.line) := rfl

/-- Association-list lookup succeeds exactly on stored keys. -/
theorem lookup_isSome_iff (m : List (String × Finding)) (k : String) :
    (m.lookup k).isSome = true ↔ k ∈ m.map Prod.fst := by
  induction m with
  | nil => simp [List.lookup]
  | cons kv t ih =>
    obtain ⟨k', v⟩ := kv
    by_cases hk : k = k'
    · simp [List.lookup, hk]
    · have hbeq : (k == k') = false := beq_eq_false_iff_ne.mpr hk
      simp only [List.lookup, hbeq]
      simp [hk, ih]

/-- The grouping loop of `UpdateFileFingerprints` keeps its keys nodup, stores
exactly the keys of the processed findings, and stores each finding under its
own key. -/
theorem updateLoop_fst_spec (fs : String → Option (List String)) (r : Result) :
    ∀ (l : List Finding) (m : List (String × Finding)) (md : List (String × Bool)),
      (m.map Prod.fst).Nodup →
      (∀ kv ∈ m, kv.1 = findingKey kv.2) →
      ((updateLoop fs r l (m, md)).1.map Prod.fst).Nodup ∧
      (∀ k, k ∈ (updateLoop fs r l (m, md)).1.map Prod.fst ↔
        k ∈ m.map Prod.fst ∨ k ∈ l.map findingKey) ∧
      (∀ kv ∈ (updateLoop fs r l (m, md)).1, kv.1 = findingKey kv.2) := by
  intro l
  induction l with
  | nil =>
    intro m md hnd hent
    refine ⟨hnd, fun k => ?_, hent⟩
    simp [updateLoop]
  | cons f rest ih =>
    intro m md hnd hent
    have hstep : updateLoop fs r (f :: rest) (m, md) =
        updateLoop fs r rest
          ((if (m.lookup (findingKey f)).isSome then m else m ++ [(findingKey f, f)]),
           (if (md.lookup f.filePath).isSome then md
            else md ++ [(f.filePath, r.isMultiDocument fs f.filePath)])) := rfl
    by_cases hsome : (m.lookup (findingKey f)).isSome = true
    · rw [hstep, if_pos hsome]
      obtain ⟨h1, h2, h3⟩ := ih _ _ hnd hent
      refine ⟨h1, fun k => ?_, h3⟩
      rw [h2 k]
      simp only [List.map_cons, List.mem_cons]
      constructor
      · rintro (h | h)
        · exact Or.inl h
        · exact Or.inr (Or.inr h)
      · rintro (h | h | h)
        · exact Or.inl h
        · refine Or.inl ?_
          rw [h]
          exact (lookup_isSome_iff m _).mp hsome
        · exact Or.inr h
    · rw [hstep, if_neg hsome]
      have hknot : findingKey f ∉ m.map Prod.fst := fun hmem =>
        hsome ((lookup_isSome_iff m _).mpr hmem)
      have hnd' : ((m ++ [(findingKey f, f)]).map Prod.fst).Nodup := by
        simp [List.map_append, List.nodup_append, hnd, hknot]
      have hent' : ∀ kv ∈ m ++ [(findingKey f, f)], kv.1 = findingKey kv.2 := by
        intro kv hkv
        rcases List.mem_append.mp hkv with h | h
        · exact hent kv h
        · simp only [List.mem_singleton] at h
          rw [h]
      obtain ⟨h1, h2, h3⟩ := ih _ _ hnd' hent'
      refine ⟨h1, fun k => ?_, h3⟩
      rw [h2 k]
      simp only [List.map_append, List.map_cons, List.map_nil, List.mem_append,
        List.mem_cons, List.mem_singleton, List.not_mem_nil, or_false]
      tauto

/-- The grouping loop started empty stores one entry per distinct key. -/
theorem updateLoop_length (fs : String → Option (List String)) (r : Result)
    (l : List Finding) :
    (updateLoop fs r l ([], [])).1.length = (l.map findingKey).toFinset.card := by
  obtain ⟨hnd, hiff, _⟩ := updateLoop_fst_spec fs r l [] [] (by simp) (by simp)
  have hkeys : ((updateLoop fs r l ([], [])).1.map Prod.fst).toFinset =
      (l.map findingKey).toFinset := by
    apply Finset.ext
    intro k
    simp only [List.mem_toFinset]
    rw [hiff k]
    simp
  have hlen1 : (updateLoop fs r l ([], [])).1.length =
      ((updateLoop fs r l ([], [])).1.map Prod.fst).length := (List.length_map _ _).symm
  rw [hlen1,
    show ((updateLoop fs r l ([], [])).1.map Prod.fst).length =
      ((updateLoop fs r l ([], [])).1.map Prod.fst).toFinset.card from by
        rw [List.card_toFinset, hnd.dedup],
    hkeys]

/-- Mapping commutes with `toFinset` as a finset image. -/
theorem list_toFinset_map {α β : Type} [DecidableEq α] [DecidableEq β] (g : α → β)
    (l : List α) : (l.map g).toFinset = l.toFinset.image g := by
  induction l with
  | nil => simp
  | cons a t ih => simp [ih]

/-- Distinct grouping keys are in bijection with distinct locations. -/
theorem map_key_card (l : List Finding) :
    (l.map findingKey).toFinset.card =
    (l.map (fun f => (f.filePath, f.line))).toFinset.card := by
  have hcomp : l.map findingKey =
      (l.map (fun f => (f.filePath, f.line))).map locationKey := by
    rw [List.map_map]
    exact List.map_congr_left fun f _ => rfl
  rw [hcomp, list_toFinset_map]
  exact Finset.card_image_of_injective _ locationKey_inj

/-- C3: on a result with a non-empty directory, `UpdateFileFingerprints`
produces exactly one `FileFingerprint` per distinct `(filePath, line)` pair of
the findings — in particular duplicate-location findings collapse to a single
fingerprint. -/
theorem c3_fingerprint_grouping (fs : String → Option (List String))
    (fpFn : String → Int → String) (r : Result) (hdir : r.Directory ≠ "") :
    (r.UpdateFileFingerprints fs fpFn).FileFingerprints.length =
      ((r.Findings.getD []).map (fun f => (f.filePath, f.line))).toFinset.card ∧
    ∀ p l, (∃ f ∈ r.Findings.getD [], f.filePath = p ∧ f.line = l) →
      ((r.UpdateFileFingerprints fs fpFn).FileFingerprints.countP
        (fun fp => fp.filePath == p && fp.line == l)) = 1 := by
  have hfind : ((r.Findings.map (List.map (fun f =>
      { f with partialFingerprint := fpFn f.filePath f.line }))).getD []) =
      (r.Findings.getD []).map (fun f =>
        { f with partialFingerprint := fpFn f.filePath f.line }) := by
    cases r.Findings <;> rfl
  have hFP : (r.UpdateFileFingerprints fs fpFn).FileFingerprints =
      (updateLoop fs r ((r.Findings.getD []).map (fun f =>
          { f with partialFingerprint := fpFn f.filePath f.line })) ([], [])).1.map (fun kv =>
        { filePath := kv.2.filePath
          partialFingerprint := kv.2.partialFingerprint
          line := kv.2.line
          repoPath := kv.2.repoPath
          multiDocumentFile := ((updateLoop fs r ((r.Findings.getD []).map (fun f =>
              { f with partialFingerprint := fpFn f.filePath f.line })) ([], [])).2.lookup
            kv.2.filePath).getD false }) := by
    unfold Result.UpdateFileFingerprints
    rw [if_neg hdir]
    show ((updateLoop fs r ((r.Findings.map (List.map (fun f =>
        { f with partialFingerprint := fpFn f.filePath f.line }))).getD []) ([], [])).1.map _) = _
    rw [hfind]
  obtain ⟨hnd, hiff, hent⟩ := updateLoop_fst_spec fs r
    ((r.Findings.getD []).map (fun f =>
      { f with partialFingerprint := fpFn f.filePath f.line })) [] [] (by simp) (by simp)
  have hpair : ((r.Findings.getD []).map (fun f =>
      { f with partialFingerprint := fpFn f.filePath f.line })).map
        (fun f => (f.filePath, f.line)) =
      (r.Findings.getD []).map (fun f => (f.filePath, f.line)) := by
    rw [List.map_map]
    exact List.map_congr_left fun f _ => rfl
  constructor
  · rw [hFP, List.length_map, updateLoop_length, map_key_card, hpair]
  · rintro p l ⟨f, hf, hfp, hfl⟩
    rw [hFP, List.countP_map]
    have hcongr : (updateLoop fs r ((r.Findings.getD []).map (fun f =>
        { f with partialFingerprint := fpFn f.filePath f.line })) ([], [])).1.countP
          ((fun fp => fp.filePath == p && fp.line == l) ∘ (fun kv =>
            ({ filePath := kv.2.filePath
               partialFingerprint := kv.2.partialFingerprint
               line := kv.2.line
               repoPath := kv.2.repoPath
               multiDocumentFile := ((updateLoop fs r ((r.Findings.getD []).map (fun f =>
                   { f with partialFingerprint := fpFn f.filePath f.line })) ([], [])).2.lookup
                 kv.2.filePath).getD false } : FileFingerprint))) =
        (updateLoop fs r ((r.Findings.getD []).map (fun f =>
          { f with partialFingerprint := fpFn f.filePath f.line })) ([], [])).1.countP
            (fun kv => kv.1 == locationKey (p, l)) := by
      apply List.countP_congr
      intro kv hkv
      have hk := hent kv hkv
      simp only [Function.comp_apply]
      constructor
      · intro hb
        simp only [Bool.and_eq_true, beq_iff_eq] at hb
        simp only [beq_iff_eq]
        rw [hk, findingKey_eq]
        show locationKey (kv.2.filePath, kv.2.line) = locationKey (p, l)
        rw [hb.1, hb.2]
      · intro hb
        simp only [beq_iff_eq] at hb
        have hloc : locationKey (kv.2.filePath, kv.2.line) = locationKey (p, l) := by
          rw [← hb, hk, findingKey_eq]
        have hpl := locationKey_inj hloc
        simp only [Prod.mk.injEq] at hpl
        simp [hpl.1, hpl.2]
    rw [hcongr]
    have hcount : (updateLoop fs r ((r.Findings.getD []).map (fun f =>
        { f with partialFingerprint := fpFn f.filePath f.line })) ([], [])).1.countP
          (fun kv => kv.1 == locationKey (p, l)) =
        List.count (locationKey (p, l)) ((updateLoop fs r ((r.Findings.getD []).map (fun f =>
          { f with partialFingerprint := fpFn f.filePath f.line })) ([], [])).1.map
            Prod.fst) := by
      rw [List.count, List.countP_map]
      rfl
    rw [hcount]
    apply List.count_eq_one_of_mem hnd
    rw [hiff]
    refine Or.inr ?_
    have hkey : findingKey ({ f with partialFingerprint := fpFn f.filePath f.line } : Finding) =
        locationKey (p, l) := by
      rw [findingKey_eq]
      show locationKey (f.filePath, f.line) = locationKey (p, l)
      rw [hfp, hfl]
    rw [← hkey]
    exact List.mem_map_of_mem findingKey (List.mem_map_of_mem _ hf)

/-- Witness for C3: two findings at line 10 of one file collapse into exactly
one fingerprint. -/
theorem c3_fingerprint_grouping_witness :
    (sampleDupResult.UpdateFileFingerprints (fun _ => none)
      (fun _ _ => "")).FileFingerprints.length = 1 ∧
    (sampleDupResult.UpdateFileFingerprints (fun _ => none)
      (fun _ _ => "")).FileFingerprints.countP
        (fun fp => fp.filePath == "main.tf" && fp.line == 10) = 1 := by
  have h := c3_fingerprint_grouping (fun _ => none) (fun _ _ => "") sampleDupResult (by decide)
  refine ⟨h.1.trans (by decide), h.2 "main.tf" 10 ⟨sampleFindingA, by decide, by decide, by decide⟩⟩

/-- A node of size zero has no elements. -/
theorem JNode.elements_eq_nil_of_size_zero {n : JNode} (h : n.size = 0) :
    n.elements = [] := by
  cases n <;> simp_all [JNode.size, JNode.elements]

/-- Filtering an array by a predicate leaves no matching elements, on any
node shape. -/
theorem countP_elements_removeIf (v : JNode) (q : JNode → Bool) :
    ((removeJNodeElementsIf v q).elements).countP q = 0 := by
  cases v <;> simp only [removeJNodeElementsIf, JNode.elements, List.countP_nil]
  case arr l =>
    rw [List.countP_eq_zero]
    intro e he
    have := (List.mem_filter.mp he).2
    simp only [Bool.not_eq_true'] at this
    simp [this]

/-- A non-missing child pins down the object shape of its parent. -/
theorem path_ne_missing {m : JNode} {k : String} (h : m.path k ≠ JNode.missing) :
    ∃ fs kv, m = JNode.obj fs ∧ fs.find? (fun kv => kv.1 = k) = some kv ∧
      m.path k = kv.2 := by
  cases m with
  | obj fs =>
    cases hfind : fs.find? (fun kv => kv.1 = k) with
    | none =>
      exfalso
      apply h
      simp [JNode.path, hfind]
    | some kv =>
      exact ⟨fs, kv, rfl, hfind, by simp [JNode.path, hfind]⟩
  | text s => exact absurd rfl h
  | num i => exact absurd rfl h
  | boolean b => exact absurd rfl h
  | arr l => exact absurd rfl h
  | missing => exact absurd rfl h

/-- The missing node has empty paths. -/
theorem path_missing (k : String) : JNode.missing.path k = JNode.missing := rfl

/-- Mutating a present field rewrites exactly that field's value. -/
theorem find?_map_mutate (fs : List (String × JNode)) (k : String) (g : JNode → JNode) :
    (fs.map (fun kv => if kv.1 = k then (kv.1, g kv.2) else kv)).find?
      (fun kv => kv.1 = k) = (fs.find? (fun kv => kv.1 = k)).map
        (fun kv => (kv.1, g kv.2)) := by
  induction fs with
  | nil => simp
  | cons kv t ih =>
    by_cases hk : kv.1 = k
    · simp [List.find?, hk]
    · simp [List.find?, hk, ih]

/-- `Path` after the aliased `Put` of `mutateField`, when the field exists. -/
theorem path_mutateField_found (fs : List (String × JNode)) (k : String) (g : JNode → JNode)
    (pr : String × JNode) (hfind : fs.find? (fun kv => kv.1 = k) = some pr) :
    ((JNode.obj fs).mutateField k g).path k = g pr.2 := by
  have hp := List.find?_some hfind
  have hany : fs.any (fun kv => kv.1 = k) = true := by
    rw [List.any_eq_true]
    exact ⟨pr, List.mem_of_find?_eq_some hfind, hp⟩
  simp only [JNode.mutateField]
  rw [if_pos hany]
  simp only [JNode.path]
  rw [find?_map_mutate, hfind]
  rfl

/-- Replacement in a keyed map hits every binding of the key. -/
theorem find?_map_put (fs : List (String × JNode)) (k : String) (v : JNode)
    (hany : fs.any (fun kv => kv.1 = k) = true) :
    (fs.map (fun kv => if kv.1 = k then (k, v) else kv)).find?
      (fun kv => kv.1 = k) = some (k, v) := by
  induction fs with
  | nil => simp at hany
  | cons kv t ih =>
    by_cases hk : kv.1 = k
    · simp [List.find?, hk]
    · simp only [List.any_cons, Bool.or_eq_true] at hany
      rcases hany with h | h
      · simp [hk] at h
      · simp [List.find?, hk, ih h]

/-- Lookup after appending a fresh binding finds that binding when nothing
before it matches. -/
theorem find?_append_last (fs : List (String × JNode)) (k : String) (v : JNode)
    (hnone : fs.any (fun kv => kv.1 = k) = false) :
    (fs ++ [(k, v)]).find? (fun kv => kv.1 = k) = some (k, v) := by
  induction fs with
  | nil => simp [List.find?]
  | cons kv t ih =>
    simp only [List.any_cons, Bool.or_eq_false_iff] at hnone
    have hk : ¬kv.1 = k := by simpa using hnone.1
    simp [List.find?, hk, ih hnone.2]

/-- `Path` after `Put` on an object returns the value just stored. -/
theorem path_put_self (fs : List (String × JNode)) (k : String) (v : JNode) :
    ((JNode.obj fs).put k v).path k = v := by
  simp only [JNode.put]
  by_cases hany : fs.any (fun kv => kv.1 = k) = true
  · rw [if_pos hany]
    simp only [JNode.path]
    rw [find?_map_put fs k v hany]
  · rw [if_neg hany]
    simp only [JNode.path]
    have hfalse : fs.any (fun kv => kv.1 = k) = false := by
      rw [← Bool.not_eq_true]
      exact hany
    rw [find?_append_last fs k v hfalse]

/-- The in-place rewrite of the violations array is visible through the same
paths the parser read. -/
theorem path_path_mutate_put (n V' : JNode)
    (hne : (n.path "results").path "violations" ≠ JNode.missing) :
    ((n.mutateField "results" (fun res => res.put "violations" V')).path "results").path
      "violations" = V' := by
  have hnr : n.path "results" ≠ JNode.missing := by
    intro h
    rw [h] at hne
    exact hne (path_missing _)
  obtain ⟨fs₀, pr₀, hn, hfind₀, hres⟩ := path_ne_missing hnr
  obtain ⟨fs₁, pr₁, hresObj, hfind₁, hviol⟩ := path_ne_missing hne
  rw [hn, path_mutateField_found fs₀ "results" _ pr₀ hfind₀]
  have hpr : pr₀.2 = JNode.obj fs₁ := hres ▸ hresObj
  rw [hpr, path_put_self]

/-- Raw document of the terrascan parse when violations are present. -/
theorem terrascan_data_pos (excluded : String → Bool) (dir : String) (n : JNode)
    (hsz : 0 < ((n.path "results").path "violations").size) :
    (terrascanParseResults excluded dir n).Data =
      n.mutateField "results" (fun res => res.put "violations"
        (removeJNodeElementsIf ((n.path "results").path "violations")
          (fun e => excluded ((e.path "file").asText)))) := by
  simp only [terrascanParseResults]
  rw [if_pos hsz]

/-- Findings of the terrascan parse when violations are present. -/
theorem terrascan_findings_pos (excluded : String → Bool) (dir : String) (n : JNode)
    (hsz : 0 < ((n.path "results").path "violations").size) :
    (terrascanParseResults excluded dir n).Findings =
      some ((removeJNodeElementsIf ((n.path "results").path "violations")
          (fun e => excluded ((e.path "file").asText))).elements.map (fun v =>
        { filePath := (v.path "file").asText
          line := (v.path "line").asInt
          description := (v.path "description").asText
          tool := [("category", (v.path "category").asText),
                   ("rule_id", (v.path "rule_id").asText),
                   ("severity", (v.path "severity").asText)]
          repoPath := ""
          partialFingerprint := "" })) := by
  simp only [terrascanParseResults]
  rw [if_pos hsz]

/-- Raw document of the terrascan parse when no violations are present. -/
theorem terrascan_data_neg (excluded : String → Bool) (dir : String) (n : JNode)
    (hsz : ¬0 < ((n.path "results").path "violations").size) :
    (terrascanParseResults excluded dir n).Data = n := by
  simp only [terrascanParseResults]
  rw [if_neg hsz]

/-- Findings of the terrascan parse when no violations are present. -/
theorem terrascan_findings_neg (excluded : String → Bool) (dir : String) (n : JNode)
    (hsz : ¬0 < ((n.path "results").path "violations").size) :
    (terrascanParseResults excluded dir n).Findings = some [] := by
  simp only [terrascanParseResults]
  rw [if_neg hsz]

/-- Raw document of the hadolint parse. -/
theorem hadolint_data_eq (excluded : String → Bool) (dir : String) (results : JNode) :
    (hadolintParseResults excluded dir results).Data =
      removeJNodeElementsIf results (fun nd => excluded ((nd.path "file").asText)) := rfl

/-- Findings of the hadolint parse. -/
theorem hadolint_findings_eq (excluded : String → Bool) (dir : String) (results : JNode) :
    (hadolintParseResults excluded dir results).Findings =
      some (results.elements.filterMap (fun data =>
        if excluded ((data.path "file").asText) then none
        else some
          { filePath := (data.path "file").asText
            line := (data.path "line").asInt
            description := ""
            tool := [("rule_id", (data.path "code").asText),
                     ("message", (data.path "message").asText),
                     ("severity", (data.path "level").asText),
                     ("file", (data.path "file").asText),
                     ("line", (data.path "line").asText)]
            repoPath := ""
            partialFingerprint := "" })) := rfl

/-- C7: both adapters' `parseResults` are transactionally consistent with the
exclusion predicate — no produced Finding references an excluded path, and the
raw document's violation/entry array retains no element with an excluded
path. -/
theorem c7_exclusion_consistency (excluded : String → Bool) (dir : String)
    (n results : JNode) :
    ((terrascanParseResults excluded dir n).Findings.getD []).countP
      (fun f => excluded f.filePath) = 0 ∧
    (((((terrascanParseResults excluded dir n).Data).path "results").path
      "violations").elements).countP (fun e => excluded ((e.path "file").asText)) = 0 ∧
    ((hadolintParseResults excluded dir results).Findings.getD []).countP
      (fun f => excluded f.filePath) = 0 ∧
    (((hadolintParseResults excluded dir results).Data).elements).countP
      (fun e => excluded ((e.path "file").asText)) = 0 := by
  refine ⟨?_, ?_, ?_, ?_⟩
  · by_cases hsz : 0 < ((n.path "results").path "violations").size
    · rw [terrascan_findings_pos excluded dir n hsz, Option.getD_some, List.countP_map]
      exact countP_elements_removeIf _ _
    · rw [terrascan_findings_neg excluded dir n hsz, Option.getD_some]
      rfl
  · by_cases hsz : 0 < ((n.path "results").path "violations").size
    · have hne : (n.path "results").path "violations" ≠ JNode.missing := by
        intro h
        rw [h] at hsz
        simp [JNode.size] at hsz
      rw [terrascan_data_pos excluded dir n hsz, path_path_mutate_put n _ hne]
      exact countP_elements_removeIf _ _
    · rw [terrascan_data_neg excluded dir n hsz,
        JNode.elements_eq_nil_of_size_zero (by omega)]
      rfl
  · rw [hadolint_findings_eq excluded dir results, Option.getD_some]
    rw [List.countP_eq_zero]
    intro f hf
    obtain ⟨d, hd, hgd⟩ := List.mem_filterMap.mp hf
    by_cases he : excluded ((d.path "file").asText) = true
    · rw [if_pos he] at hgd
      simp at hgd
    · rw [if_neg he] at hgd
      injection hgd with hgd
      intro hp
      apply he
      rw [← hgd] at hp
      exact hp
  · rw [hadolint_data_eq excluded dir results]
    exact countP_elements_removeIf _ _
